import Mathlib

/-!
# yq: the jq wrapper of `wrap/wrap.go`

A shallow embedding of `Wrapper` and its methods `Run`, `defaults`,
`checkParams`, `debug`, `processInput`, `execute` and `processOutput`.

What the Go code obtains from outside the repository is a field of `Env`:
the two codecs (`gopkg.in/yaml.v3`, `encoding/json`), `fmt.Sprintf("%v", _)`,
`ioutil.ReadAll`, `exec.Cmd.Run`, `Write` on the output stream, and the order
in which `range` visits the entries of the map `wrappedParams`.

Every call that leaves the wrapper is also appended to the field `log` of the
model state, in the order the Go code performs it, so that statements such as
"stdin is not read" or "no subprocess is launched" can be written down.
-/

namespace Wrap

/-- Go `[]byte`. -/
abbrev Bytes := List UInt8

/-- Go `map[string]string`: a list of bindings with pairwise distinct keys. -/
abbrev StrMap := List (String × String)

/-- Go `m[k] = v`. -/
def mapAssign : StrMap → String → String → StrMap
  | [], k, v => [(k, v)]
  | (k0, v0) :: rest, k, v =>
    if k0 = k then (k, v) :: rest else (k0, v0) :: mapAssign rest k v

/-- Go `m[k]` for a string map: the zero value `""` when the key is absent. -/
def mapIndex : StrMap → String → String
  | [], _ => ""
  | (k0, v0) :: rest, k => if k0 = k then v0 else mapIndex rest k

/-- Result of `strconv.FormatBool(true)`. -/
def formatBoolTrue : String := "true"

/-- Table `wrappedParams` (wrap.go:42-45), format opt: longopt. -/
def wrappedParams : StrMap := [("-r", "--raw-output"), ("-R", "--raw-input")]

/-- Table `noInputParams` (wrap.go:48-50). -/
def noInputParams : StrMap := [("-h", "--help")]

/-- Table `noOutputParams` (wrap.go:53-55). -/
def noOutputParams : StrMap := [("-h", "--help")]

/-- The error value of `cmd.Run()`, split by the type assertion
`err.(*exec.ExitError)` of wrap.go:226. -/
inductive CmdErr (E : Type) where
  | exitError (e : E)
  | other (e : E)

/-- What `cmd.Run()` leaves behind: the bytes the child wrote to `cmd.Stdout`,
`cmd.ProcessState` and the returned error. -/
structure CmdResult (E PS : Type) where
  out : Bytes
  state : Option PS
  err : Option (CmdErr E)

/-- The second argument of a call of `w.debug`. -/
inductive DebugData (V E : Type) where
  | strMap (m : StrMap)
  | bytes (b : Bytes)
  | value (v : V)
  | args (a : List String)
  | cmdErr (e : Option (CmdErr E))

/-- One call leaving the wrapper. -/
inductive Event (V E W : Type) where
  | debug (name : String) (data : DebugData V E)
  | readAll
  | yamlUnmarshal (b : Bytes)
  | jsonMarshal (v : V)
  | command (path : String) (args : List String) (stdin : Option Bytes) (stderr : Option W)
  | jsonUnmarshal (b : Bytes)
  | sprintf (v : V)
  | yamlMarshal (v : V)
  | write (dst : W) (b : Bytes)

/-- Everything outside the repository. `V` is the dynamic value `interface{}`,
`E` is `error`, `PS` is `*os.ProcessState`, `R` and `W` are the readers and
writers. -/
structure Env (V E PS R W : Type) where
  /-- Order in which `range wrappedParams` visits the entries. -/
  wrappedOrder : StrMap
  osStdin : R
  osStdout : W
  osStderr : W
  /-- `ioutil.ReadAll` on a reader. -/
  readAll : R → Except E Bytes
  /-- `yaml.Unmarshal(b, &x)` for `x` of type `interface{}`. -/
  yamlUnmarshal : Bytes → Except E V
  /-- `json.Marshal`. -/
  jsonMarshal : V → Except E Bytes
  /-- `cmd.Run()` for the command with this path, arguments, stdin and stderr. -/
  cmdRun : String → List String → Option Bytes → Option W → CmdResult E PS
  /-- `json.Unmarshal(b, &x)` for `x` of type `interface{}`. -/
  jsonUnmarshal : Bytes → Except E V
  /-- `[]byte(fmt.Sprintf("%v", x))`. -/
  sprintV : V → Bytes
  /-- `yaml.Marshal`. -/
  yamlMarshal : V → Except E Bytes
  /-- The error returned by `Write` on a writer. -/
  write : W → Bytes → Option E

/-- The struct `Wrapper` (wrap.go:18-39), and the history `log`. -/
structure Wrapper (V E PS R W : Type) where
  JQ : String
  Args : List String
  Stdin : Option R
  Stdout : Option W
  Stderr : Option W
  /-- Whether `Debug` is non-nil. -/
  Debug : Bool
  ProcessState : Option PS
  wrappedArgs : StrMap
  noInArgs : StrMap
  noOutArgs : StrMap
  /-- Reader `stdinForJQ`: nil, or a buffer holding these bytes. -/
  stdinForJQ : Option Bytes
  /-- Buffer `stdoutForJQ`: nil, or a buffer holding these bytes. -/
  stdoutForJQ : Option Bytes
  log : List (Event V E W)

/-- How a method returning `error` ends. `nilDeref` is the run-time panic of a
method call on a nil stream or buffer. -/
inductive Res (E : Type) where
  | ok
  | error (e : E)
  | nilDeref

variable {V E PS R W : Type}

/-- A fresh wrapper as a caller builds it: the exported fields given, the
rest zero. -/
def Wrapper.new (jq : String) (args : List String) (stdin : Option R)
    (stdout stderr : Option W) (dbg : Bool) : Wrapper V E PS R W :=
  { JQ := jq, Args := args, Stdin := stdin, Stdout := stdout, Stderr := stderr,
    Debug := dbg, ProcessState := none, wrappedArgs := [], noInArgs := [],
    noOutArgs := [], stdinForJQ := none, stdoutForJQ := none, log := [] }

/-- Append an event to the history. -/
def emit (w : Wrapper V E PS R W) (ev : Event V E W) : Wrapper V E PS R W :=
  { w with log := w.log ++ [ev] }

/-- Method `debug` (wrap.go:155-159). -/
def debug (w : Wrapper V E PS R W) (name : String) (data : DebugData V E) :
    Wrapper V E PS R W :=
  if w.Debug then emit w (.debug name data) else w

/-- Method `defaults` (wrap.go:78-94). -/
def defaults (env : Env V E PS R W) (w : Wrapper V E PS R W) : Wrapper V E PS R W :=
  let w := if w.JQ = "" then { w with JQ := "jq" } else w
  let w := if w.Stdin.isNone then { w with Stdin := some env.osStdin } else w
  let w := if w.Stdout.isNone then { w with Stdout := some env.osStdout } else w
  let w := if w.Stderr.isNone then { w with Stderr := some env.osStderr } else w
  w

/-- State of the inner loop of wrap.go:102-116: the backing array of `w.Args`,
the write index `i` and the map `w.wrappedArgs`. -/
structure CutState where
  arr : List String
  i : Nat
  m : StrMap

/-- Body of `for _, a := range w.Args` at index `j` (wrap.go:104-114): `a` is
read from the backing array, which the default case overwrites at `i`. -/
def cutBody (k v : String) (s : CutState) (j : Nat) : CutState :=
  match s.arr[j]? with
  | none => s
  | some a =>
    if a = k ∨ a = v then { s with m := mapAssign s.m k formatBoolTrue }
    else { s with arr := s.arr.set s.i a, i := s.i + 1 }

/-- One round of the outer loop of wrap.go:101-117 for the entry `(k, v)`,
ending with `w.Args = w.Args[:i]`. -/
def cutWrapped (s : List String × StrMap) (kv : String × String) : List String × StrMap :=
  let r := (List.range s.1.length).foldl (cutBody kv.1 kv.2) ⟨s.1, 0, s.2⟩
  (r.arr.take r.i, r.m)

/-- Body of the inner loops of wrap.go:125-132 and 141-148. -/
def markBody (k v : String) (m : StrMap) (a : String) : StrMap :=
  if a = k ∨ a = v then mapAssign m k formatBoolTrue else m

/-- The loops of wrap.go:124-133 and 140-149 over a table and `w.Args`. -/
def markParams (table : StrMap) (args : List String) : StrMap :=
  table.foldl (fun m kv => args.foldl (markBody kv.1 kv.2) m) []

/-- Method `checkParams` (wrap.go:97-152). Both tables of the last two loops
have one entry, hence one order of iteration. -/
def checkParams (env : Env V E PS R W) (w : Wrapper V E PS R W) : Wrapper V E PS R W :=
  let r := env.wrappedOrder.foldl cutWrapped (w.Args, [])
  let w := { w with wrappedArgs := r.2, Args := r.1 }
  let w := debug w "wrappedArgs" (.strMap w.wrappedArgs)
  let w := { w with noInArgs := markParams noInputParams w.Args }
  let w := debug w "noInArgs" (.strMap w.noInArgs)
  let w := { w with noOutArgs := markParams noOutputParams w.Args }
  let w := debug w "noOutArgs" (.strMap w.noOutArgs)
  w

/-- Method `processInput` (wrap.go:162-208). -/
def processInput (env : Env V E PS R W) (w : Wrapper V E PS R W) :
    Res E × Wrapper V E PS R W :=
  if w.noInArgs.length > 0 then
    (.ok, { w with stdinForJQ := none })
  else
    match w.Stdin with
    | none => (.nilDeref, w)
    | some r =>
      let w := emit w .readAll
      match env.readAll r with
      | .error e => (.error e, w)
      | .ok inYAML =>
        let w := debug w "inYAML" (.bytes inYAML)
        if inYAML.length > 0 then
          let w := emit w (.yamlUnmarshal inYAML)
          match env.yamlUnmarshal inYAML with
          | .error e => (.error e, w)
          | .ok inRAW =>
            let w := debug w "inRAW" (.value inRAW)
            let w := emit w (.jsonMarshal inRAW)
            match env.jsonMarshal inRAW with
            | .error e => (.error e, w)
            | .ok inJSON =>
              let w := debug w "inJSON" (.bytes inJSON)
              (.ok, { w with stdinForJQ := some inJSON })
        else
          let inJSON : Bytes := []
          let w := debug w "inJSON" (.bytes inJSON)
          (.ok, { w with stdinForJQ := some inJSON })

/-- Method `execute` (wrap.go:211-236). The command is built by
`exec.Command("jq", w.Args...)`. -/
def execute (env : Env V E PS R W) (w : Wrapper V E PS R W) :
    Res E × Wrapper V E PS R W :=
  let w := debug w "jqArgs" (.args w.Args)
  let w := emit w (.command "jq" w.Args w.stdinForJQ w.Stderr)
  let c := env.cmdRun "jq" w.Args w.stdinForJQ w.Stderr
  let w := { w with stdoutForJQ := some c.out }
  match c.err with
  | some (.other e) => (.error e, w)
  | err =>
    let w := debug w "cmdErr" (.cmdErr err)
    (.ok, { w with ProcessState := c.state })

/-- The call `w.Stdout.Write(b)` and its returned error. -/
def writeStdout (env : Env V E PS R W) (w : Wrapper V E PS R W) (b : Bytes) :
    Res E × Wrapper V E PS R W :=
  match w.Stdout with
  | none => (.nilDeref, w)
  | some dst =>
    let w := emit w (.write dst b)
    match env.write dst b with
    | some e => (.error e, w)
    | none => (.ok, w)

/-- Method `processOutput` (wrap.go:239-285). -/
def processOutput (env : Env V E PS R W) (w : Wrapper V E PS R W) :
    Res E × Wrapper V E PS R W :=
  match w.stdoutForJQ with
  | none => (.nilDeref, w)
  | some outJSON =>
    let w := debug w "outJSON" (.bytes outJSON)
    if outJSON.length = 0 then (.ok, w)
    else if w.noOutArgs.length > 0 then writeStdout env w outJSON
    else
      let w := emit w (.jsonUnmarshal outJSON)
      match env.jsonUnmarshal outJSON with
      | .error e => (.error e, w)
      | .ok outRAW =>
        let w := debug w "outRAW" (.value outRAW)
        if mapIndex w.wrappedArgs "-r" ≠ "" then
          let w := emit w (.sprintf outRAW)
          let outYAML := env.sprintV outRAW
          let w := debug w "outYAML" (.bytes outYAML)
          writeStdout env w outYAML
        else
          let w := emit w (.yamlMarshal outRAW)
          match env.yamlMarshal outRAW with
          | .error e => (.error e, w)
          | .ok outYAML =>
            let w := debug w "outYAML" (.bytes outYAML)
            writeStdout env w outYAML

/-- Method `Run` (wrap.go:58-75). -/
def Run (env : Env V E PS R W) (w : Wrapper V E PS R W) : Res E × Wrapper V E PS R W :=
  let w := checkParams env (defaults env w)
  match processInput env w with
  | (.ok, w) =>
    match execute env w with
    | (.ok, w) => processOutput env w
    | r => r
  | r => r

/-- The byte strings handed to `Write` on the output stream, in order. -/
def written : List (Event V E W) → List Bytes
  | [] => []
  | .write _ b :: rest => b :: written rest
  | _ :: rest => written rest

/-- The state in which `Run` calls `processInput`. -/
def beforeInput (env : Env V E PS R W) (w : Wrapper V E PS R W) : Wrapper V E PS R W :=
  checkParams env (defaults env w)

/-- The state in which `Run` calls `execute`, when `processInput` returned nil. -/
def beforeExecute (env : Env V E PS R W) (w : Wrapper V E PS R W) : Wrapper V E PS R W :=
  (processInput env (beforeInput env w)).2

/-- The state in which `Run` calls `processOutput`, when `execute` returned nil. -/
def beforeOutput (env : Env V E PS R W) (w : Wrapper V E PS R W) : Wrapper V E PS R W :=
  (execute env (beforeExecute env w)).2

/-- The result of `cmd.Run()` in `execute` as `Run` calls it. -/
def childResult (env : Env V E PS R W) (w : Wrapper V E PS R W) : CmdResult E PS :=
  env.cmdRun "jq" (beforeExecute env w).Args (beforeExecute env w).stdinForJQ
    (beforeExecute env w).Stderr

/-- The stage of `Run` an event belongs to: 0 debug record, 1 input
translation, 2 subprocess, 3 output translation. -/
def Event.phase : Event V E W → Nat
  | .debug _ _ => 0
  | .readAll => 1
  | .yamlUnmarshal _ => 1
  | .jsonMarshal _ => 1
  | .command _ _ _ _ => 2
  | .jsonUnmarshal _ => 3
  | .sprintf _ => 3
  | .yamlMarshal _ => 3
  | .write _ _ => 3

/-- The paths of the executables launched, in order. -/
def launched : List (Event V E W) → List String
  | [] => []
  | .command path _ _ _ :: rest => path :: launched rest
  | _ :: rest => launched rest

/-- Spec wording, "a token equal to the short or the long spelling of an entry
of the table". -/
def isWrapped (table : StrMap) (a : String) : Bool :=
  table.any (fun kv => decide (a = kv.1 ∨ a = kv.2))

/-- What one round of the cutting loop keeps. -/
def keeps (k v : String) (a : String) : Bool := !decide (a = k ∨ a = v)

/-! ## Statements of the specification and sample invocations -/

/-- An outside world to run the model on concrete inputs: a reader is the
bytes it yields, a value is a byte string, the two decoders and the child are
given, both encoders and the formatter are the identity, and writing
succeeds. -/
def testEnv (order : StrMap) (child : Option Bytes → CmdResult String Nat)
    (yamlDec jsonDec : Bytes → Except String Bytes) : Env Bytes String Nat Bytes Unit :=
  { wrappedOrder := order
    osStdin := []
    osStdout := ()
    osStderr := ()
    readAll := fun r => .ok r
    yamlUnmarshal := yamlDec
    jsonMarshal := fun v => .ok v
    cmdRun := fun _ _ stdin _ => child stdin
    jsonUnmarshal := jsonDec
    sprintV := fun v => v
    yamlMarshal := fun v => .ok v
    write := fun _ _ => none }

/-- A child that echoes its stdin and exits with code 0. -/
def echoChild (stdin : Option Bytes) : CmdResult String Nat :=
  ⟨stdin.getD [], some 0, none⟩

/-- The test world with an echoing child and decoders that accept everything. -/
def echoEnv (order : StrMap) : Env Bytes String Nat Bytes Unit :=
  testEnv order echoChild (fun b => .ok b) (fun b => .ok b)

/-- A decoder that rejects the byte string `bad` and accepts the others. -/
def rejecting (bad : Bytes) (msg : String) (b : Bytes) : Except String Bytes :=
  if b = bad then .error msg else .ok b

/-- A decoder of JSON string literals without escapes: it drops the two quotes. -/
def unquote (b : Bytes) : Except String Bytes := .ok b.tail.dropLast

/-- The wrapper `main` builds for the arguments `args` and the input `input`. -/
def mainWrapper (args : List String) (input : Bytes) : Wrapper Bytes String Nat Bytes Unit :=
  Wrapper.new "jq" args (some input) (some ()) (some ()) false

/-- The invocation `yq --help` with the input `foo`. -/
def helpInvocation : Wrapper Bytes String Nat Bytes Unit :=
  mainWrapper ["--help"] [102, 111, 111]

/-- A child that prints a usage text, not JSON, and exits with code 0. -/
def usageChild (_ : Option Bytes) : CmdResult String Nat :=
  ⟨[85, 115, 97, 103, 101, 58, 10], some 0, none⟩

/-- The invocation `yq .foo` with empty input. -/
def emptyInvocation : Wrapper Bytes String Nat Bytes Unit :=
  mainWrapper [".foo"] []

/-- The invocation `yq .foo` with the one-byte input `"`. -/
def quoteInvocation : Wrapper Bytes String Nat Bytes Unit :=
  mainWrapper [".foo"] [34]

/-- A child that prints `1` and a newline and exits with code 1. -/
def exitOneChild (_ : Option Bytes) : CmdResult String Nat :=
  ⟨[49, 10], some 1, some (.exitError "exit status 1")⟩

/-- A child that could not be started. -/
def missingChild (_ : Option Bytes) : CmdResult String Nat :=
  ⟨[], none, some (.other "executable file not found")⟩

/-- A child that prints the one byte `x` and exits with code 0. -/
def brokenChild (_ : Option Bytes) : CmdResult String Nat :=
  ⟨[120], some 0, none⟩

/-- The debug records of `checkParams`. -/
def checkLog (dbg : Bool) (wa ni no : StrMap) : List (Event V E W) :=
  if dbg then
    [.debug "wrappedArgs" (.strMap wa), .debug "noInArgs" (.strMap ni),
      .debug "noOutArgs" (.strMap no)]
  else []

/-- Spec wording, "a no-input / no-output flag is among the arguments". -/
def hasHelp (args : List String) : Prop := "-h" ∈ args ∨ "--help" ∈ args

instance (args : List String) : Decidable (hasHelp args) := by
  unfold hasHelp; infer_instance

/-- Spec wording, "the raw-output flag is among the arguments, in either
spelling". -/
def hasRawOutput (args : List String) : Prop := "-r" ∈ args ∨ "--raw-output" ∈ args

instance (args : List String) : Decidable (hasRawOutput args) := by
  unfold hasRawOutput; infer_instance

/-- An event is a debug record. -/
def Event.isDebug : Event V E W → Bool
  | .debug _ _ => true
  | _ => false

/-- The run has not started: nothing is in the history yet. -/
def Wrapper.fresh (w : Wrapper V E PS R W) : Prop := w.log = []

/-- Spec wording of C2, "wrapped = {raw-output}": the list with `-r` and
`--raw-output` removed and every other token kept. -/
def specForwarded (args : List String) : List String :=
  args.filter (fun a => decide (a ≠ "-r" ∧ a ≠ "--raw-output"))

/-- The calls of `Write`, in order: the writer written to and the bytes
handed to it. -/
def writes : List (Event V E W) → List (W × Bytes)
  | [] => []
  | .write dst b :: rest => (dst, b) :: writes rest
  | _ :: rest => writes rest

/-- The two writers of a process. -/
inductive Sink where
  | stdout
  | stderr
  deriving DecidableEq

/-- An outside world as `testEnv`, with `os.Stdout` and `os.Stderr` told apart. -/
def sinkEnv (order : StrMap) (child : Option Bytes → CmdResult String Nat)
    (yamlDec jsonDec : Bytes → Except String Bytes) : Env Bytes String Nat Bytes Sink :=
  { wrappedOrder := order
    osStdin := []
    osStdout := .stdout
    osStderr := .stderr
    readAll := fun r => .ok r
    yamlUnmarshal := yamlDec
    jsonMarshal := fun v => .ok v
    cmdRun := fun _ _ stdin _ => child stdin
    jsonUnmarshal := jsonDec
    sprintV := fun v => v
    yamlMarshal := fun v => .ok v
    write := fun _ _ => none }

/-- The wrapper `main` builds, with `Stdout` and `Stderr` the two writers of
the process. -/
def sinkWrapper (args : List String) (input : Bytes) : Wrapper Bytes String Nat Bytes Sink :=
  Wrapper.new "jq" args (some input) (some .stdout) (some .stderr) false

/-! ## The maps -/

theorem mapIndex_assign_same (m : StrMap) (k v : String) :
    mapIndex (mapAssign m k v) k = v := by
  induction m with
  | nil => simp [mapAssign, mapIndex]
  | cons p rest ih =>
    obtain ⟨k0, v0⟩ := p
    by_cases h : k0 = k
    · simp [mapAssign, mapIndex, h]
    · simp [mapAssign, mapIndex, h, ih]

theorem mapIndex_assign_other (m : StrMap) (k v k1 : String) (h : k ≠ k1) :
    mapIndex (mapAssign m k v) k1 = mapIndex m k1 := by
  induction m with
  | nil => simp [mapAssign, mapIndex, h]
  | cons p rest ih =>
    obtain ⟨k0, v0⟩ := p
    by_cases h0 : k0 = k
    · subst h0
      simp [mapAssign, mapIndex, h]
    · by_cases h1 : k0 = k1
      · subst h1
        simp [mapAssign, mapIndex, h0]
      · simp [mapAssign, mapIndex, h0, h1, ih]

theorem mapAssign_ne_nil (m : StrMap) (k v : String) : mapAssign m k v ≠ [] := by
  cases m with
  | nil => simp [mapAssign]
  | cons p rest =>
    obtain ⟨k0, v0⟩ := p
    by_cases h : k0 = k <;> simp [mapAssign, h]

/-! ## The cutting loop -/

theorem cut_inv (k v : String) (args : List String) (m : StrMap) :
    ∀ n, n ≤ args.length →
      ((List.range n).foldl (cutBody k v) ⟨args, 0, m⟩).i ≤ n ∧
      ((List.range n).foldl (cutBody k v) ⟨args, 0, m⟩).arr.length = args.length ∧
      ((List.range n).foldl (cutBody k v) ⟨args, 0, m⟩).arr.take
          ((List.range n).foldl (cutBody k v) ⟨args, 0, m⟩).i
        = (args.take n).filter (keeps k v) ∧
      ((List.range n).foldl (cutBody k v) ⟨args, 0, m⟩).arr.drop n = args.drop n := by
  intro n
  induction n with
  | zero => intro _; simp
  | succ n ih =>
    intro hn
    obtain ⟨hi, hlen, htake, hdrop⟩ := ih (by omega)
    rw [List.range_succ, List.foldl_append]
    simp only [List.foldl_cons, List.foldl_nil]
    generalize (List.range n).foldl (cutBody k v) ⟨args, 0, m⟩ = s at hi hlen htake hdrop
    have hget : s.arr[n]? = some args[n] := by
      have h1 : (s.arr.drop n)[0]? = (args.drop n)[0]? := by rw [hdrop]
      rw [List.getElem?_drop, List.getElem?_drop] at h1
      simpa [List.getElem?_eq_getElem (show n < args.length by omega)] using h1
    have hargs : args.take (n + 1) = args.take n ++ [args[n]] := by
      rw [List.take_succ, List.getElem?_eq_getElem (show n < args.length by omega)]
      rfl
    have hdrop1 : s.arr.drop (n + 1) = args.drop (n + 1) := by
      have := congrArg (List.drop 1) hdrop
      simpa [List.drop_drop, Nat.add_comm] using this
    unfold cutBody
    rw [hget]
    by_cases hc : args[n] = k ∨ args[n] = v
    · simp only [hc, if_true]
      refine ⟨by omega, hlen, ?_, hdrop1⟩
      rw [hargs, List.filter_append, htake]
      simp [keeps, hc]
    · simp only [hc, if_false]
      refine ⟨by omega, by simp [hlen], ?_, ?_⟩
      · rw [hargs, List.filter_append, ← htake, List.take_succ,
          List.getElem?_set_self (by omega), List.set_take,
          List.set_eq_of_length_le (by simp)]
        simp [keeps, hc]
      · rw [List.drop_set_of_lt _ _ (by omega)]
        exact hdrop1

theorem cutWrapped_args (s : List String × StrMap) (kv : String × String) :
    (cutWrapped s kv).1 = s.1.filter (keeps kv.1 kv.2) := by
  obtain ⟨_, _, htake, _⟩ := cut_inv kv.1 kv.2 s.1 s.2 s.1.length (Nat.le_refl _)
  simp only [cutWrapped]
  rw [htake, List.take_length]

theorem foldl_cutWrapped_args (order : StrMap) (s : List String × StrMap) :
    (order.foldl cutWrapped s).1
      = s.1.filter (fun a => !isWrapped order a) := by
  induction order generalizing s with
  | nil => simp [isWrapped]
  | cons kv rest ih =>
    rw [List.foldl_cons, ih, cutWrapped_args, List.filter_filter]
    congr 1
    funext a
    simp [isWrapped, keeps, Bool.and_comm]

theorem isWrapped_perm {o t : StrMap} (h : o.Perm t) (a : String) :
    isWrapped o a = isWrapped t a := by
  have : (isWrapped o a = true) ↔ (isWrapped t a = true) := by
    simp only [isWrapped, List.any_eq_true]
    constructor
    · rintro ⟨x, hx, hp⟩; exact ⟨x, h.mem_iff.1 hx, hp⟩
    · rintro ⟨x, hx, hp⟩; exact ⟨x, h.mem_iff.2 hx, hp⟩
  cases h1 : isWrapped o a <;> cases h2 : isWrapped t a <;> simp_all

theorem debug_Args (w : Wrapper V E PS R W) (name : String) (d : DebugData V E) :
    (debug w name d).Args = w.Args := by
  unfold debug emit; split <;> rfl

theorem checkParams_Args_order (env : Env V E PS R W) (w : Wrapper V E PS R W) :
    (checkParams env w).Args = w.Args.filter (fun a => !isWrapped env.wrappedOrder a) := by
  simp only [checkParams, debug_Args]
  exact foldl_cutWrapped_args _ _

/-! ## The state after `defaults` and `checkParams` -/

theorem debug_eq (w : Wrapper V E PS R W) (name : String) (d : DebugData V E) :
    debug w name d = { w with log := w.log ++ (if w.Debug then [Event.debug name d] else []) } := by
  obtain ⟨jq, args, sin, sout, serr, dbg, ps, wa, ni, no, sj, so, lg⟩ := w
  cases dbg <;> simp [debug, emit]

theorem defaults_eq (env : Env V E PS R W) (w : Wrapper V E PS R W) :
    defaults env w =
      { w with
        JQ := if w.JQ = "" then "jq" else w.JQ
        Stdin := some (w.Stdin.getD env.osStdin)
        Stdout := some (w.Stdout.getD env.osStdout)
        Stderr := some (w.Stderr.getD env.osStderr) } := by
  obtain ⟨jq, args, sin, sout, serr, dbg, ps, wa, ni, no, sj, so, lg⟩ := w
  cases sin <;> cases sout <;> cases serr <;> by_cases h : jq = "" <;> simp [defaults, h]

theorem checkParams_eq (env : Env V E PS R W) (w : Wrapper V E PS R W) :
    checkParams env w =
      { w with
        Args := (env.wrappedOrder.foldl cutWrapped (w.Args, [])).1
        wrappedArgs := (env.wrappedOrder.foldl cutWrapped (w.Args, [])).2
        noInArgs := markParams noInputParams (env.wrappedOrder.foldl cutWrapped (w.Args, [])).1
        noOutArgs := markParams noOutputParams (env.wrappedOrder.foldl cutWrapped (w.Args, [])).1
        log := w.log ++ checkLog w.Debug
          (env.wrappedOrder.foldl cutWrapped (w.Args, [])).2
          (markParams noInputParams (env.wrappedOrder.foldl cutWrapped (w.Args, [])).1)
          (markParams noOutputParams (env.wrappedOrder.foldl cutWrapped (w.Args, [])).1) } := by
  obtain ⟨jq, args, sin, sout, serr, dbg, ps, wa, ni, no, sj, so, lg⟩ := w
  cases dbg <;> simp [checkParams, debug_eq, checkLog]

/-! ## The marking loops -/

theorem markFold_miss (k v : String) (args : List String) (m : StrMap)
    (h : ∀ a ∈ args, ¬ (a = k ∨ a = v)) : args.foldl (markBody k v) m = m := by
  induction args generalizing m with
  | nil => rfl
  | cons a rest ih =>
    have ha : ¬ (a = k ∨ a = v) := h a (List.mem_cons_self _ _)
    rw [List.foldl_cons]
    have : markBody k v m a = m := by simp [markBody, ha]
    rw [this]
    exact ih m (fun b hb => h b (List.mem_cons_of_mem _ hb))

theorem markFold_ne_nil (k v : String) (args : List String) (m : StrMap) (hm : m ≠ []) :
    args.foldl (markBody k v) m ≠ [] := by
  induction args generalizing m with
  | nil => exact hm
  | cons a rest ih =>
    rw [List.foldl_cons]
    apply ih
    unfold markBody
    split
    · exact mapAssign_ne_nil _ _ _
    · exact hm

theorem markFold_hit (k v : String) (args : List String) (m : StrMap)
    (h : ∃ a ∈ args, a = k ∨ a = v) : args.foldl (markBody k v) m ≠ [] := by
  induction args generalizing m with
  | nil => simp at h
  | cons a rest ih =>
    rw [List.foldl_cons]
    by_cases ha : a = k ∨ a = v
    · apply markFold_ne_nil
      simp only [markBody, ha, if_true]
      exact mapAssign_ne_nil _ _ _
    · obtain ⟨b, hb, hbm⟩ := h
      rcases List.mem_cons.1 hb with rfl | hb
      · exact absurd hbm ha
      · exact ih _ ⟨b, hb, hbm⟩

theorem markParams_help_hit (args : List String) (h : hasHelp args) :
    (markParams [("-h", "--help")] args).length > 0 := by
  apply List.length_pos.2
  simp only [markParams, List.foldl_cons, List.foldl_nil]
  apply markFold_hit
  rcases h with h | h
  · exact ⟨_, h, Or.inl rfl⟩
  · exact ⟨_, h, Or.inr rfl⟩

theorem markParams_help_miss (args : List String) (h : ¬ hasHelp args) :
    markParams [("-h", "--help")] args = [] := by
  simp only [markParams, List.foldl_cons, List.foldl_nil]
  apply markFold_miss
  intro a ha hm
  apply h
  rcases hm with rfl | rfl
  · exact Or.inl ha
  · exact Or.inr ha

theorem hasHelp_filter (args : List String) (o : StrMap) (ho : o.Perm wrappedParams) :
    hasHelp (args.filter (fun a => !isWrapped o a)) ↔ hasHelp args := by
  have h1 : isWrapped o "-h" = false := by rw [isWrapped_perm ho]; decide
  have h2 : isWrapped o "--help" = false := by rw [isWrapped_perm ho]; decide
  simp [hasHelp, List.mem_filter, h1, h2]

/-! ## The map `wrappedArgs` -/

theorem mapIndex_assign_true (m : StrMap) (k key : String)
    (h : mapIndex m key = "true") : mapIndex (mapAssign m k formatBoolTrue) key = "true" := by
  by_cases hk : k = key
  · subst hk; rw [mapIndex_assign_same]; rfl
  · rw [mapIndex_assign_other _ _ _ _ hk]; exact h

theorem cutBody_m_stable (k v key : String) (s : CutState) (j : Nat)
    (h : mapIndex s.m key = "true") : mapIndex (cutBody k v s j).m key = "true" := by
  unfold cutBody
  split
  · exact h
  · split
    · exact mapIndex_assign_true _ _ _ h
    · exact h

theorem cutFold_m_stable (k v key : String) (l : List Nat) (s : CutState)
    (h : mapIndex s.m key = "true") : mapIndex (l.foldl (cutBody k v) s).m key = "true" := by
  induction l generalizing s with
  | nil => exact h
  | cons j rest ih => exact ih _ (cutBody_m_stable k v key s j h)

theorem cut_m_hit (k v : String) (args : List String) (m : StrMap) :
    ∀ n, n ≤ args.length → (∃ a ∈ args.take n, a = k ∨ a = v) →
      mapIndex ((List.range n).foldl (cutBody k v) ⟨args, 0, m⟩).m k = "true" := by
  intro n
  induction n with
  | zero => intro _ h; simp at h
  | succ n ih =>
    intro hn hex
    obtain ⟨_, _, _, hdrop⟩ := cut_inv k v args m n (by omega)
    have ih1 := ih (by omega)
    rw [List.range_succ, List.foldl_append]
    simp only [List.foldl_cons, List.foldl_nil]
    generalize (List.range n).foldl (cutBody k v) ⟨args, 0, m⟩ = s at hdrop ih1
    have hget : s.arr[n]? = some args[n] := by
      have h1 : (s.arr.drop n)[0]? = (args.drop n)[0]? := by rw [hdrop]
      rw [List.getElem?_drop, List.getElem?_drop] at h1
      simpa [List.getElem?_eq_getElem (show n < args.length by omega)] using h1
    have hargs : args.take (n + 1) = args.take n ++ [args[n]] := by
      rw [List.take_succ, List.getElem?_eq_getElem (show n < args.length by omega)]
      rfl
    unfold cutBody
    rw [hget]
    by_cases hc : args[n] = k ∨ args[n] = v
    · simp only [hc, if_true]
      rw [mapIndex_assign_same]; rfl
    · simp only [hc, if_false]
      apply ih1
      obtain ⟨a, ha, hm⟩ := hex
      rw [hargs, List.mem_append] at ha
      rcases ha with ha | ha
      · exact ⟨a, ha, hm⟩
      · rw [List.mem_singleton] at ha
        subst ha
        exact absurd hm hc

theorem cutWrapped_m_hit (s : List String × StrMap) (kv : String × String)
    (h : ∃ a ∈ s.1, a = kv.1 ∨ a = kv.2) : mapIndex (cutWrapped s kv).2 kv.1 = "true" := by
  simp only [cutWrapped]
  apply cut_m_hit _ _ _ _ _ (Nat.le_refl _)
  rwa [List.take_length]

theorem cutWrapped_m_stable (s : List String × StrMap) (kv : String × String) (key : String)
    (h : mapIndex s.2 key = "true") : mapIndex (cutWrapped s kv).2 key = "true" := by
  simp only [cutWrapped]
  exact cutFold_m_stable _ _ _ _ _ h

theorem foldl_cutWrapped_stable (order : StrMap) (s : List String × StrMap) (key : String)
    (h : mapIndex s.2 key = "true") : mapIndex (order.foldl cutWrapped s).2 key = "true" := by
  induction order generalizing s with
  | nil => exact h
  | cons kv rest ih => exact ih _ (cutWrapped_m_stable s kv key h)

theorem foldl_cutWrapped_hit (order : StrMap) (s : List String × StrMap) (k v a : String)
    (hmem : (k, v) ∈ order) (ha : a ∈ s.1) (hm : a = k ∨ a = v)
    (hs : ∀ kv ∈ order, kv ≠ (k, v) → keeps kv.1 kv.2 a = true) :
    mapIndex (order.foldl cutWrapped s).2 k = "true" := by
  induction order generalizing s with
  | nil => simp at hmem
  | cons kv rest ih =>
    rw [List.foldl_cons]
    by_cases hkv : kv = (k, v)
    · subst hkv
      exact foldl_cutWrapped_stable _ _ _ (cutWrapped_m_hit s (k, v) ⟨a, ha, hm⟩)
    · apply ih
      · rcases List.mem_cons.1 hmem with h | h
        · exact absurd h.symm hkv
        · exact h
      · rw [cutWrapped_args, List.mem_filter]
        exact ⟨ha, hs kv (List.mem_cons_self _ _) hkv⟩
      · intro kv1 h1 h2
        exact hs kv1 (List.mem_cons_of_mem _ h1) h2

theorem wrappedArgs_raw (order : StrMap) (args : List String)
    (ho : order.Perm wrappedParams) (h : hasRawOutput args) :
    mapIndex (order.foldl cutWrapped (args, [])).2 "-r" = "true" := by
  have hmem : ("-r", "--raw-output") ∈ order := ho.mem_iff.2 (by simp [wrappedParams])
  have hother : ∀ kv ∈ order, kv ≠ ("-r", "--raw-output") → kv = ("-R", "--raw-input") := by
    intro kv hkv hne
    have := ho.mem_iff.1 hkv
    simp only [wrappedParams, List.mem_cons, List.mem_singleton, List.not_mem_nil, or_false] at this
    rcases this with h1 | h1
    · exact absurd h1 hne
    · exact h1
  rcases h with h | h
  · refine foldl_cutWrapped_hit order _ _ _ "-r" hmem h (Or.inl rfl) ?_
    intro kv hkv hne
    rw [hother kv hkv hne]; decide
  · refine foldl_cutWrapped_hit order _ _ _ "--raw-output" hmem h (Or.inr rfl) ?_
    intro kv hkv hne
    rw [hother kv hkv hne]; decide

theorem cut_m_miss (k v : String) (args : List String) (m : StrMap) :
    ∀ n, n ≤ args.length → (∀ a ∈ args.take n, ¬ (a = k ∨ a = v)) →
      ((List.range n).foldl (cutBody k v) ⟨args, 0, m⟩).m = m := by
  intro n
  induction n with
  | zero => intro _ _; rfl
  | succ n ih =>
    intro hn hall
    obtain ⟨_, _, _, hdrop⟩ := cut_inv k v args m n (by omega)
    have hargs : args.take (n + 1) = args.take n ++ [args[n]] := by
      rw [List.take_succ, List.getElem?_eq_getElem (show n < args.length by omega)]
      rfl
    have ih1 := ih (by omega) (fun a ha => hall a (by rw [hargs]; exact List.mem_append_left _ ha))
    have hc : ¬ (args[n] = k ∨ args[n] = v) :=
      hall _ (by rw [hargs]; exact List.mem_append_right _ (List.mem_singleton_self _))
    rw [List.range_succ, List.foldl_append]
    simp only [List.foldl_cons, List.foldl_nil]
    generalize (List.range n).foldl (cutBody k v) ⟨args, 0, m⟩ = s at hdrop ih1
    have hget : s.arr[n]? = some args[n] := by
      have h1 : (s.arr.drop n)[0]? = (args.drop n)[0]? := by rw [hdrop]
      rw [List.getElem?_drop, List.getElem?_drop] at h1
      simpa [List.getElem?_eq_getElem (show n < args.length by omega)] using h1
    unfold cutBody
    rw [hget]
    simp only [hc, if_false]
    exact ih1

theorem cutWrapped_miss (s : List String × StrMap) (kv : String × String)
    (h : ∀ a ∈ s.1, ¬ (a = kv.1 ∨ a = kv.2)) : cutWrapped s kv = s := by
  have h1 : (cutWrapped s kv).1 = s.1 := by
    rw [cutWrapped_args, List.filter_eq_self]
    intro a ha
    simp [keeps, h a ha]
  have h2 : (cutWrapped s kv).2 = s.2 := by
    simp only [cutWrapped]
    apply cut_m_miss _ _ _ _ _ (Nat.le_refl _)
    rwa [List.take_length]
  exact Prod.ext h1 h2

theorem foldl_cutWrapped_miss (order : StrMap) (s : List String × StrMap)
    (h : ∀ a ∈ s.1, isWrapped order a = false) : order.foldl cutWrapped s = s := by
  induction order with
  | nil => rfl
  | cons kv rest ih =>
    have hkv : ∀ a ∈ s.1, ¬ (a = kv.1 ∨ a = kv.2) := by
      intro a ha hm
      have := h a ha
      simp only [isWrapped, List.any_cons, Bool.or_eq_false_iff, decide_eq_false_iff_not] at this
      exact this.1 hm
    rw [List.foldl_cons, cutWrapped_miss s kv hkv]
    apply ih
    intro a ha
    have := h a ha
    simp only [isWrapped, List.any_cons, Bool.or_eq_false_iff] at this
    exact this.2

/-! ## Fields of the state in which `Run` calls `processInput` -/

theorem defaults_Args (env : Env V E PS R W) (w : Wrapper V E PS R W) :
    (defaults env w).Args = w.Args := by rw [defaults_eq]

theorem defaults_log (env : Env V E PS R W) (w : Wrapper V E PS R W) :
    (defaults env w).log = w.log := by rw [defaults_eq]

theorem defaults_Debug (env : Env V E PS R W) (w : Wrapper V E PS R W) :
    (defaults env w).Debug = w.Debug := by rw [defaults_eq]

theorem checkParams_noInArgs (env : Env V E PS R W) (w : Wrapper V E PS R W) :
    (checkParams env w).noInArgs
      = markParams noInputParams (w.Args.filter (fun a => !isWrapped env.wrappedOrder a)) := by
  rw [checkParams_eq, foldl_cutWrapped_args]

theorem checkParams_noOutArgs (env : Env V E PS R W) (w : Wrapper V E PS R W) :
    (checkParams env w).noOutArgs
      = markParams noOutputParams (w.Args.filter (fun a => !isWrapped env.wrappedOrder a)) := by
  rw [checkParams_eq, foldl_cutWrapped_args]

theorem checkParams_wrappedArgs (env : Env V E PS R W) (w : Wrapper V E PS R W) :
    (checkParams env w).wrappedArgs = (env.wrappedOrder.foldl cutWrapped (w.Args, [])).2 := by
  rw [checkParams_eq]

theorem checkParams_log_debug (env : Env V E PS R W) (w : Wrapper V E PS R W)
    (hl : w.fresh) : ∀ ev ∈ (checkParams env (defaults env w)).log, ev.isDebug = true := by
  intro ev hev
  rw [checkParams_eq, defaults_eq] at hev
  unfold Wrapper.fresh at hl
  simp only [hl, List.nil_append, checkLog] at hev
  split at hev
  · simp only [List.mem_cons, List.mem_singleton, List.not_mem_nil, or_false] at hev
    rcases hev with rfl | rfl | rfl <;> rfl
  · simp at hev

theorem noInArgs_pos (env : Env V E PS R W) (w : Wrapper V E PS R W)
    (ho : env.wrappedOrder.Perm wrappedParams) (hh : hasHelp w.Args) :
    (checkParams env (defaults env w)).noInArgs.length > 0 := by
  rw [checkParams_noInArgs, defaults_Args]
  exact markParams_help_hit _ ((hasHelp_filter _ _ ho).2 hh)

theorem noInArgs_nil (env : Env V E PS R W) (w : Wrapper V E PS R W)
    (ho : env.wrappedOrder.Perm wrappedParams) (hh : ¬ hasHelp w.Args) :
    (checkParams env (defaults env w)).noInArgs = [] := by
  rw [checkParams_noInArgs, defaults_Args]
  exact markParams_help_miss _ (fun h => hh ((hasHelp_filter _ _ ho).1 h))

theorem noOutArgs_pos (env : Env V E PS R W) (w : Wrapper V E PS R W)
    (ho : env.wrappedOrder.Perm wrappedParams) (hh : hasHelp w.Args) :
    (checkParams env (defaults env w)).noOutArgs.length > 0 := by
  rw [checkParams_noOutArgs, defaults_Args]
  exact markParams_help_hit _ ((hasHelp_filter _ _ ho).2 hh)

theorem noOutArgs_nil (env : Env V E PS R W) (w : Wrapper V E PS R W)
    (ho : env.wrappedOrder.Perm wrappedParams) (hh : ¬ hasHelp w.Args) :
    (checkParams env (defaults env w)).noOutArgs = [] := by
  rw [checkParams_noOutArgs, defaults_Args]
  exact markParams_help_miss _ (fun h => hh ((hasHelp_filter _ _ ho).1 h))

theorem checkParams_Stdin (env : Env V E PS R W) (w : Wrapper V E PS R W) :
    (checkParams env (defaults env w)).Stdin = some (w.Stdin.getD env.osStdin) := by
  rw [checkParams_eq, defaults_eq]

theorem checkParams_Stdout (env : Env V E PS R W) (w : Wrapper V E PS R W) :
    (checkParams env (defaults env w)).Stdout = some (w.Stdout.getD env.osStdout) := by
  rw [checkParams_eq, defaults_eq]

/-! ## Stages of `Run` -/

theorem Run_eq (env : Env V E PS R W) (w : Wrapper V E PS R W) :
    Run env w =
      match (processInput env (beforeInput env w)).1 with
      | .ok =>
        match (execute env (beforeExecute env w)).1 with
        | .ok => processOutput env (beforeOutput env w)
        | r => (r, beforeOutput env w)
      | r => (r, beforeExecute env w) := by
  unfold Run beforeOutput beforeExecute beforeInput
  dsimp only
  generalize processInput env (checkParams env (defaults env w)) = pi
  obtain ⟨r, wi⟩ := pi
  cases r
  · simp only
    generalize execute env wi = ex
    obtain ⟨r2, we⟩ := ex
    cases r2 <;> rfl
  · rfl
  · rfl

theorem written_append (l1 l2 : List (Event V E W)) :
    written (l1 ++ l2) = written l1 ++ written l2 := by
  induction l1 with
  | nil => rfl
  | cons ev rest ih => cases ev <;> simp [written, ih]

theorem written_of_phase (l : List (Event V E W)) (h : ∀ ev ∈ l, ev.phase ≤ 2) :
    written l = [] := by
  induction l with
  | nil => rfl
  | cons ev rest ih =>
    have h1 := h ev (List.mem_cons_self _ _)
    have h2 := ih (fun x hx => h x (List.mem_cons_of_mem _ hx))
    cases ev <;> simp_all [written, Event.phase]

theorem writes_append (l1 l2 : List (Event V E W)) :
    writes (l1 ++ l2) = writes l1 ++ writes l2 := by
  induction l1 with
  | nil => rfl
  | cons ev rest ih => cases ev <;> simp [writes, ih]

theorem writes_of_phase (l : List (Event V E W)) (h : ∀ ev ∈ l, ev.phase ≤ 2) :
    writes l = [] := by
  induction l with
  | nil => rfl
  | cons ev rest ih =>
    have h1 := h ev (List.mem_cons_self _ _)
    have h2 := ih (fun x hx => h x (List.mem_cons_of_mem _ hx))
    cases ev <;> simp_all [writes, Event.phase]

theorem launched_append (l1 l2 : List (Event V E W)) :
    launched (l1 ++ l2) = launched l1 ++ launched l2 := by
  induction l1 with
  | nil => rfl
  | cons ev rest ih => cases ev <;> simp [launched, ih]

theorem phase_beforeInput (env : Env V E PS R W) (w : Wrapper V E PS R W) (hl : w.fresh) :
    ∀ ev ∈ (beforeInput env w).log, ev.phase = 0 := by
  intro ev hev
  have := checkParams_log_debug env w hl ev hev
  cases ev <;> simp_all [Event.isDebug, Event.phase]

theorem phase_processInput (env : Env V E PS R W) (w : Wrapper V E PS R W)
    (h : ∀ ev ∈ w.log, ev.phase ≤ 1) : ∀ ev ∈ (processInput env w).2.log, ev.phase ≤ 1 := by
  unfold processInput
  split
  · exact h
  · split
    · exact h
    · split
      · intro ev hev
        simp only [emit, List.mem_append, List.mem_singleton] at hev
        rcases hev with hev | rfl
        · exact h ev hev
        · simp [Event.phase]
      · split
        · split
          · intro ev hev
            simp only [emit, debug_eq, List.mem_append, List.mem_singleton] at hev
            rcases hev with ((hev | rfl) | hev) | rfl
            · exact h ev hev
            · simp [Event.phase]
            · split at hev
              · simp only [List.mem_singleton] at hev; subst hev; simp [Event.phase]
              · simp at hev
            · simp [Event.phase]
          · split
            · intro ev hev
              simp only [emit, debug_eq, List.mem_append, List.mem_singleton] at hev
              rcases hev with (((((hev | rfl) | hev) | rfl) | hev) | rfl)
              · exact h ev hev
              · simp [Event.phase]
              · split at hev
                · simp only [List.mem_singleton] at hev; subst hev; simp [Event.phase]
                · simp at hev
              · simp [Event.phase]
              · split at hev
                · simp only [List.mem_singleton] at hev; subst hev; simp [Event.phase]
                · simp at hev
              · simp [Event.phase]
            · intro ev hev
              simp only [emit, debug_eq, List.mem_append, List.mem_singleton] at hev
              rcases hev with ((((((hev | rfl) | hev) | rfl) | hev) | rfl) | hev)
              · exact h ev hev
              · simp [Event.phase]
              · split at hev
                · simp only [List.mem_singleton] at hev; subst hev; simp [Event.phase]
                · simp at hev
              · simp [Event.phase]
              · split at hev
                · simp only [List.mem_singleton] at hev; subst hev; simp [Event.phase]
                · simp at hev
              · simp [Event.phase]
              · split at hev
                · simp only [List.mem_singleton] at hev; subst hev; simp [Event.phase]
                · simp at hev
        · intro ev hev
          simp only [emit, debug_eq, List.mem_append, List.mem_singleton] at hev
          rcases hev with (((hev | rfl) | hev) | hev)
          · exact h ev hev
          · simp [Event.phase]
          · split at hev
            · simp only [List.mem_singleton] at hev; subst hev; simp [Event.phase]
            · simp at hev
          · split at hev
            · simp only [List.mem_singleton] at hev; subst hev; simp [Event.phase]
            · simp at hev

theorem processInput_frame (env : Env V E PS R W) (w : Wrapper V E PS R W) :
    (processInput env w).2.noOutArgs = w.noOutArgs ∧
    (processInput env w).2.wrappedArgs = w.wrappedArgs ∧
    (processInput env w).2.Stdout = w.Stdout ∧
    (processInput env w).2.Debug = w.Debug ∧
    (processInput env w).2.Args = w.Args ∧
    (processInput env w).2.Stderr = w.Stderr := by
  unfold processInput
  repeat' split
  all_goals simp [emit, debug_eq]

theorem execute_frame (env : Env V E PS R W) (w : Wrapper V E PS R W) :
    (execute env w).2.noOutArgs = w.noOutArgs ∧
    (execute env w).2.wrappedArgs = w.wrappedArgs ∧
    (execute env w).2.Stdout = w.Stdout ∧
    (execute env w).2.Debug = w.Debug ∧
    (execute env w).2.Args = w.Args ∧
    (execute env w).2.stdoutForJQ = some (env.cmdRun "jq" w.Args w.stdinForJQ w.Stderr).out := by
  unfold execute
  simp only [emit, debug_eq]
  split <;> simp

theorem phase_execute (env : Env V E PS R W) (w : Wrapper V E PS R W)
    (h : ∀ ev ∈ w.log, ev.phase ≤ 2) : ∀ ev ∈ (execute env w).2.log, ev.phase ≤ 2 := by
  unfold execute
  simp only [emit, debug_eq]
  split
  · intro ev hev
    simp only [List.mem_append, List.mem_singleton] at hev
    rcases hev with (hev | hev) | rfl
    · exact h ev hev
    · split at hev
      · simp only [List.mem_singleton] at hev; subst hev; simp [Event.phase]
      · simp at hev
    · simp [Event.phase]
  · intro ev hev
    simp only [List.mem_append, List.mem_singleton] at hev
    rcases hev with ((hev | hev) | rfl) | hev
    · exact h ev hev
    · split at hev
      · simp only [List.mem_singleton] at hev; subst hev; simp [Event.phase]
      · simp at hev
    · simp [Event.phase]
    · split at hev
      · simp only [List.mem_singleton] at hev; subst hev; simp [Event.phase]
      · simp at hev

theorem phase_beforeExecute (env : Env V E PS R W) (w : Wrapper V E PS R W) (hl : w.fresh) :
    ∀ ev ∈ (beforeExecute env w).log, ev.phase ≤ 1 := by
  apply phase_processInput
  intro ev hev
  rw [phase_beforeInput env w hl ev hev]
  exact Nat.zero_le _

theorem phase_beforeOutput (env : Env V E PS R W) (w : Wrapper V E PS R W) (hl : w.fresh) :
    ∀ ev ∈ (beforeOutput env w).log, ev.phase ≤ 2 := by
  apply phase_execute
  intro ev hev
  exact Nat.le_succ_of_le (phase_beforeExecute env w hl ev hev)

theorem beforeOutput_noOutArgs (env : Env V E PS R W) (w : Wrapper V E PS R W) :
    (beforeOutput env w).noOutArgs = (beforeInput env w).noOutArgs := by
  unfold beforeOutput beforeExecute
  rw [(execute_frame env _).1, (processInput_frame env _).1]

theorem beforeOutput_wrappedArgs (env : Env V E PS R W) (w : Wrapper V E PS R W) :
    (beforeOutput env w).wrappedArgs = (beforeInput env w).wrappedArgs := by
  unfold beforeOutput beforeExecute
  rw [(execute_frame env _).2.1, (processInput_frame env _).2.1]

theorem beforeOutput_Stdout (env : Env V E PS R W) (w : Wrapper V E PS R W) :
    (beforeOutput env w).Stdout = some (w.Stdout.getD env.osStdout) := by
  unfold beforeOutput beforeExecute beforeInput
  rw [(execute_frame env _).2.2.1, (processInput_frame env _).2.2.1, checkParams_Stdout]

theorem beforeOutput_stdoutForJQ (env : Env V E PS R W) (w : Wrapper V E PS R W) :
    (beforeOutput env w).stdoutForJQ = some (childResult env w).out := by
  unfold beforeOutput childResult
  exact (execute_frame env _).2.2.2.2.2

theorem launched_of_phase (l : List (Event V E W)) (h : ∀ ev ∈ l, ev.phase ≤ 1) :
    launched l = [] := by
  induction l with
  | nil => rfl
  | cons ev rest ih =>
    have h1 := h ev (List.mem_cons_self _ _)
    have h2 := ih (fun x hx => h x (List.mem_cons_of_mem _ hx))
    cases ev <;> simp_all [launched, Event.phase]

theorem execute_result (env : Env V E PS R W) (w : Wrapper V E PS R W) :
    (execute env w).1 =
        (match (env.cmdRun "jq" w.Args w.stdinForJQ w.Stderr).err with
          | some (.other e) => Res.error e
          | _ => Res.ok) ∧
    (execute env w).2.ProcessState =
        (match (env.cmdRun "jq" w.Args w.stdinForJQ w.Stderr).err with
          | some (.other _) => w.ProcessState
          | _ => (env.cmdRun "jq" w.Args w.stdinForJQ w.Stderr).state) := by
  unfold execute
  simp only [emit, debug_eq]
  generalize (env.cmdRun "jq" w.Args w.stdinForJQ w.Stderr).err = err
  rcases err with _ | ⟨e⟩ | ⟨e⟩ <;> simp

/-- With no token of the wrapped table and neither `-h` nor `--help` among the
arguments, a non-empty input, a child that echoes its stdin and exits with
code 0, and all five library calls succeeding, `Run` returns nil and hands to
`Stdout` the bytes obtained by chaining `yaml.Unmarshal`, `json.Marshal`,
`json.Unmarshal` and `yaml.Marshal`. -/
theorem Run_echo_chain (env : Env V E PS R W) (w : Wrapper V E PS R W)
    (inYAML inJSON outYAML : Bytes) (inRAW outRAW : V) (st : Option PS)
    (ho : env.wrappedOrder.Perm wrappedParams) (hl : w.fresh)
    (hw : ∀ a ∈ w.Args, isWrapped wrappedParams a = false) (hh : ¬ hasHelp w.Args)
    (hr : env.readAll (w.Stdin.getD env.osStdin) = .ok inYAML) (hne : inYAML ≠ [])
    (hy : env.yamlUnmarshal inYAML = .ok inRAW) (hj : env.jsonMarshal inRAW = .ok inJSON)
    (hecho : ∀ path args stderr, env.cmdRun path args (some inJSON) stderr = ⟨inJSON, st, none⟩)
    (hne2 : inJSON ≠ [])
    (hj2 : env.jsonUnmarshal inJSON = .ok outRAW) (hy2 : env.yamlMarshal outRAW = .ok outYAML)
    (hwr : env.write (w.Stdout.getD env.osStdout) outYAML = none) :
    (Run env w).1 = Res.ok ∧ written (Run env w).2.log = [outYAML] := by
  have hnil : (beforeInput env w).noInArgs = [] := noInArgs_nil env w ho hh
  have hin : (beforeInput env w).Stdin = some (w.Stdin.getD env.osStdin) :=
    checkParams_Stdin env w
  have hlen : inYAML.length > 0 := List.length_pos.2 hne
  have hpi : (processInput env (beforeInput env w)).1 = Res.ok ∧
      (processInput env (beforeInput env w)).2.stdinForJQ = some inJSON := by
    unfold processInput
    simp only [hnil, hin, hr, hy, hj, hlen, List.length_nil, gt_iff_lt, lt_self_iff_false,
      if_false, if_true, and_self]
  have hchild : childResult env w = ⟨inJSON, st, none⟩ := by
    unfold childResult beforeExecute
    rw [hpi.2]
    exact hecho _ _ _
  have hex : (execute env (beforeExecute env w)).1 = Res.ok := by
    have := (execute_result env (beforeExecute env w)).1
    unfold childResult at hchild
    rw [hchild] at this
    exact this
  have hs := beforeOutput_stdoutForJQ env w
  rw [hchild] at hs
  have hd := beforeOutput_Stdout env w
  have hn : (beforeOutput env w).noOutArgs = [] := by
    rw [beforeOutput_noOutArgs]; exact noOutArgs_nil env w ho hh
  have hwa : mapIndex (beforeOutput env w).wrappedArgs "-r" = "" := by
    rw [beforeOutput_wrappedArgs]
    unfold beforeInput
    rw [checkParams_wrappedArgs, defaults_Args, foldl_cutWrapped_miss]
    · rfl
    · intro a ha
      rw [isWrapped_perm ho]
      exact hw a ha
  have hp := phase_beforeOutput env w hl
  have hwn := written_of_phase _ hp
  have hrun : Run env w = processOutput env (beforeOutput env w) := by
    rw [Run_eq, hpi.1]
    simp only [hex]
  rw [hrun]
  generalize beforeOutput env w = we at hs hd hn hp hwn hwa
  have hlen2 : ¬ inJSON.length = 0 := fun h => hne2 (List.length_eq_zero.1 h)
  unfold processOutput
  simp only [hs, hlen2, if_false, hn, List.length_nil, gt_iff_lt, lt_self_iff_false, hj2, hy2,
    debug_eq, emit, hwa, writeStdout, hd, hwr, ne_eq, not_true_eq_false, written_append, hwn]
  refine ⟨trivial, ?_⟩
  cases we.Debug <;> simp [written]

/-! ## Claims -/

/-- C1: after `checkParams` the forwarded list `Args` is the original list
without the tokens equal to the short or the long spelling of an entry of
`wrappedParams`, the other tokens in their original order, in whatever order
`range` visits the table; so no wrapped token is left in it. -/
theorem checkParams_cuts_wrapped (env : Env V E PS R W) (w : Wrapper V E PS R W)
    (ho : env.wrappedOrder.Perm wrappedParams) :
    (checkParams env w).Args = w.Args.filter (fun a => !isWrapped wrappedParams a) ∧
    ∀ a ∈ (checkParams env w).Args, ∀ kv ∈ wrappedParams, a ≠ kv.1 ∧ a ≠ kv.2 := by
  have hA : (checkParams env w).Args = w.Args.filter (fun a => !isWrapped wrappedParams a) := by
    rw [checkParams_Args_order]
    congr 1
    funext a
    rw [isWrapped_perm ho]
  refine ⟨hA, ?_⟩
  intro a ha kv hkv
  rw [hA, List.mem_filter] at ha
  have hw : isWrapped wrappedParams a = false := by simpa using ha.2
  constructor
  · intro h
    have : isWrapped wrappedParams a = true := by
      simp only [isWrapped, List.any_eq_true]
      exact ⟨kv, hkv, by simp [h]⟩
    rw [hw] at this; exact Bool.noConfusion this
  · intro h
    have : isWrapped wrappedParams a = true := by
      simp only [isWrapped, List.any_eq_true]
      exact ⟨kv, hkv, by simp [h]⟩
    rw [hw] at this; exact Bool.noConfusion this

/-- Witness of C1: the table visited in reverse order, both spellings of both
entries among the arguments. -/
theorem checkParams_cuts_wrapped_witness :
    (echoEnv wrappedParams.reverse).wrappedOrder.Perm wrappedParams ∧
    ((checkParams (echoEnv wrappedParams.reverse)
        (mainWrapper ["--raw-input", ".foo", "-r", "-h", "--raw-output", "-R", "x"] [])).Args
      = (mainWrapper ["--raw-input", ".foo", "-r", "-h", "--raw-output", "-R", "x"] []).Args.filter
          (fun a => !isWrapped wrappedParams a) ∧
    ∀ a ∈ (checkParams (echoEnv wrappedParams.reverse)
        (mainWrapper ["--raw-input", ".foo", "-r", "-h", "--raw-output", "-R", "x"] [])).Args,
      ∀ kv ∈ wrappedParams, a ≠ kv.1 ∧ a ≠ kv.2) :=
  ⟨List.reverse_perm _, checkParams_cuts_wrapped _ _ (List.reverse_perm _)⟩

/-- C2 fails at the arguments `-R .foo`: the claim forwards both tokens, the
code forwards `.foo` alone. -/
theorem checkParams_cuts_raw_input :
    (checkParams (echoEnv wrappedParams) (mainWrapper ["-R", ".foo"] [])).Args = [".foo"] ∧
    specForwarded ["-R", ".foo"] = ["-R", ".foo"] ∧
    (checkParams (echoEnv wrappedParams) (mainWrapper ["-R", ".foo"] [])).Args
      ≠ specForwarded (mainWrapper ["-R", ".foo"] []).Args := by
  decide

/-- C2, amended: the tokens `checkParams` removes are `-r`, `--raw-output`,
`-R` and `--raw-input`; every other token, `-h` and `--help` included, is
forwarded unchanged and in the original order. -/
theorem checkParams_cuts_four_tokens (env : Env V E PS R W) (w : Wrapper V E PS R W)
    (ho : env.wrappedOrder.Perm wrappedParams) :
    (checkParams env w).Args
      = w.Args.filter (fun a =>
          decide (a ≠ "-r" ∧ a ≠ "--raw-output" ∧ a ≠ "-R" ∧ a ≠ "--raw-input")) ∧
    (hasHelp (checkParams env w).Args ↔ hasHelp w.Args) := by
  have hA : (checkParams env w).Args = w.Args.filter (fun a => !isWrapped env.wrappedOrder a) :=
    checkParams_Args_order env w
  refine ⟨?_, ?_⟩
  · rw [hA]
    congr 1
    funext a
    rw [isWrapped_perm ho]
    simp only [isWrapped, wrappedParams, List.any_cons, List.any_nil, Bool.or_false]
    by_cases h1 : a = "-r" <;> by_cases h2 : a = "--raw-output" <;>
      by_cases h3 : a = "-R" <;> by_cases h4 : a = "--raw-input" <;> simp [h1, h2, h3, h4]
  · rw [hA]
    exact hasHelp_filter _ _ ho

/-- Witness of C2 as amended. -/
theorem checkParams_cuts_four_tokens_witness :
    (echoEnv wrappedParams.reverse).wrappedOrder.Perm wrappedParams ∧
    ((checkParams (echoEnv wrappedParams.reverse)
        (mainWrapper ["-h", "-R", "--arg", "-r", "--help"] [])).Args
      = (mainWrapper ["-h", "-R", "--arg", "-r", "--help"] []).Args.filter (fun a =>
          decide (a ≠ "-r" ∧ a ≠ "--raw-output" ∧ a ≠ "-R" ∧ a ≠ "--raw-input")) ∧
    (hasHelp (checkParams (echoEnv wrappedParams.reverse)
        (mainWrapper ["-h", "-R", "--arg", "-r", "--help"] [])).Args
      ↔ hasHelp (mainWrapper ["-h", "-R", "--arg", "-r", "--help"] []).Args)) :=
  ⟨List.reverse_perm _, checkParams_cuts_four_tokens _ _ (List.reverse_perm _)⟩

/-- C6: with `-h` or `--help` among the arguments, whatever the input stream
holds, `processInput` succeeds, does not read the stream, and leaves
`stdinForJQ` nil. -/
theorem processInput_skips_stdin (env : Env V E PS R W) (w : Wrapper V E PS R W)
    (ho : env.wrappedOrder.Perm wrappedParams) (hh : hasHelp w.Args) (hl : w.fresh) :
    (processInput env (checkParams env (defaults env w))).1 = Res.ok ∧
    (processInput env (checkParams env (defaults env w))).2.stdinForJQ = none ∧
    Event.readAll ∉ (processInput env (checkParams env (defaults env w))).2.log := by
  have hlen := noInArgs_pos env w ho hh
  have hlog := checkParams_log_debug env w hl
  unfold processInput
  rw [if_pos hlen]
  refine ⟨rfl, rfl, ?_⟩
  intro hmem
  have := hlog _ hmem
  simp [Event.isDebug] at this

/-- C10: without `-h` and `--help`, when reading the input stream succeeds
with zero bytes, `processInput` succeeds, `stdinForJQ` is a buffer of zero
bytes, neither `yaml.Unmarshal` nor `json.Marshal` is called, and no debug
record named "inRAW" is emitted. -/
theorem processInput_empty_input (env : Env V E PS R W) (w : Wrapper V E PS R W)
    (ho : env.wrappedOrder.Perm wrappedParams) (hh : ¬ hasHelp w.Args)
    (hr : env.readAll (w.Stdin.getD env.osStdin) = .ok []) (hl : w.fresh) :
    (processInput env (checkParams env (defaults env w))).1 = Res.ok ∧
    (processInput env (checkParams env (defaults env w))).2.stdinForJQ = some [] ∧
    (∀ b, Event.yamlUnmarshal b ∉ (processInput env (checkParams env (defaults env w))).2.log) ∧
    (∀ v, Event.jsonMarshal v ∉ (processInput env (checkParams env (defaults env w))).2.log) ∧
    (∀ d, Event.debug "inRAW" d ∉ (processInput env (checkParams env (defaults env w))).2.log) := by
  have hnil := noInArgs_nil env w ho hh
  have hin := checkParams_Stdin env w
  have hlog : (checkParams env (defaults env w)).log
      = checkLog w.Debug (checkParams env (defaults env w)).wrappedArgs
          (checkParams env (defaults env w)).noInArgs
          (checkParams env (defaults env w)).noOutArgs := by
    unfold Wrapper.fresh at hl
    rw [checkParams_eq, defaults_eq]
    simp [hl]
  generalize checkParams env (defaults env w) = p at hnil hin hlog
  unfold processInput
  simp only [hnil, hin, hr, List.length_nil, gt_iff_lt, lt_self_iff_false, if_false]
  simp only [debug_eq, emit, hlog, checkLog]
  refine ⟨trivial, trivial, ?_, ?_, ?_⟩ <;> intro x <;> cases w.Debug <;> cases p.Debug <;> simp

/-- C5: with `-h` or `--help` among the arguments, whatever bytes the
subprocess produced, `processOutput` calls `Write` on no writer but the one in
the field `Stdout` (the caller's, or `os.Stdout` when it was nil), what it
writes there is exactly those bytes (one `Write` of them, none when they are
empty), and `json.Unmarshal` is not called, for any JSON decoder. -/
theorem processOutput_passthrough (env : Env V E PS R W) (w : Wrapper V E PS R W)
    (ho : env.wrappedOrder.Perm wrappedParams) (hh : hasHelp w.Args) (hl : w.fresh) :
    (beforeOutput env w).Stdout = some (w.Stdout.getD env.osStdout) ∧
    ((childResult env w).out = [] →
      writes (processOutput env (beforeOutput env w)).2.log = []) ∧
    ((childResult env w).out ≠ [] →
      writes (processOutput env (beforeOutput env w)).2.log
        = [(w.Stdout.getD env.osStdout, (childResult env w).out)]) ∧
    (written (processOutput env (beforeOutput env w)).2.log).flatten = (childResult env w).out ∧
    ((childResult env w).out ≠ [] →
      written (processOutput env (beforeOutput env w)).2.log = [(childResult env w).out]) ∧
    ∀ b, Event.jsonUnmarshal b ∉ (processOutput env (beforeOutput env w)).2.log := by
  have hs := beforeOutput_stdoutForJQ env w
  have hd := beforeOutput_Stdout env w
  have hn : (beforeOutput env w).noOutArgs.length > 0 := by
    rw [beforeOutput_noOutArgs]; exact noOutArgs_pos env w ho hh
  have hp := phase_beforeOutput env w hl
  have hw := written_of_phase _ hp
  have hws := writes_of_phase _ hp
  refine ⟨hd, ?_⟩
  generalize beforeOutput env w = we at hs hd hn hp hw hws
  generalize (childResult env w).out = out at hs
  unfold processOutput
  simp only [hs]
  by_cases hout : out = []
  · subst hout
    simp only [List.length_nil, if_true, debug_eq, written_append, writes_append, hw, hws]
    refine ⟨fun _ => ?_, fun h => absurd rfl h, ?_, fun h => absurd rfl h, ?_⟩
    · cases we.Debug <;> simp [writes]
    · cases we.Debug <;> simp [written]
    · intro b hb
      simp only [List.mem_append] at hb
      rcases hb with hb | hb
      · have := hp _ hb; simp [Event.phase] at this
      · cases we.Debug <;> simp at hb
  · have hlen : ¬ out.length = 0 := fun h => hout (List.length_eq_zero.1 h)
    simp only [hlen, if_false, debug_eq, hn, if_true, writeStdout, hd, emit]
    have hlog : ∀ r : Res E × Wrapper V E PS R W,
        r.2.log = (we.log ++ if we.Debug = true then [Event.debug "outJSON" (DebugData.bytes out)] else [])
          ++ [Event.write (w.Stdout.getD env.osStdout) out] →
        (out = [] → writes r.2.log = []) ∧
        (out ≠ [] → writes r.2.log = [(w.Stdout.getD env.osStdout, out)]) ∧
        (written r.2.log).flatten = out ∧ (out ≠ [] → written r.2.log = [out]) ∧
          ∀ b, Event.jsonUnmarshal b ∉ r.2.log := by
      intro r hr
      rw [hr]
      simp only [written_append, writes_append, hw, hws]
      refine ⟨fun h => absurd h hout, fun _ => ?_, ?_, fun _ => ?_, ?_⟩
      · cases we.Debug <;> simp [writes]
      · cases we.Debug <;> simp [written]
      · cases we.Debug <;> simp [written]
      · intro b hb
        simp only [List.mem_append, List.mem_singleton] at hb
        rcases hb with (hb | hb) | hb
        · have := hp _ hb; simp [Event.phase] at this
        · cases we.Debug <;> simp at hb
        · cases hb
    split <;> exact hlog _ rfl

/-- C7: with `-r` or `--raw-output` among the arguments and neither `-h` nor
`--help`, when the captured output is a (non-empty) JSON text that
`json.Unmarshal` decodes to a value `v` and `fmt.Sprintf("%v", v)` is the
text `s`, as it is for the JSON string literal of `s`, `processOutput` calls
`Write` once, on the writer in the field `Stdout` (the caller's, or
`os.Stdout` when it was nil), with exactly the bytes `s`, and `yaml.Marshal`
is not called. -/
theorem processOutput_raw (env : Env V E PS R W) (w : Wrapper V E PS R W) (v : V) (s : Bytes)
    (ho : env.wrappedOrder.Perm wrappedParams) (hr : hasRawOutput w.Args)
    (hh : ¬ hasHelp w.Args) (hl : w.fresh)
    (hne : (childResult env w).out ≠ [])
    (hj : env.jsonUnmarshal (childResult env w).out = .ok v)
    (hsv : env.sprintV v = s) :
    (beforeOutput env w).Stdout = some (w.Stdout.getD env.osStdout) ∧
    writes (processOutput env (beforeOutput env w)).2.log
      = [(w.Stdout.getD env.osStdout, s)] ∧
    written (processOutput env (beforeOutput env w)).2.log = [s] ∧
    ∀ x, Event.yamlMarshal x ∉ (processOutput env (beforeOutput env w)).2.log := by
  have hs := beforeOutput_stdoutForJQ env w
  have hd := beforeOutput_Stdout env w
  have hn : (beforeOutput env w).noOutArgs = [] := by
    rw [beforeOutput_noOutArgs]; exact noOutArgs_nil env w ho hh
  have hwa : mapIndex (beforeOutput env w).wrappedArgs "-r" = "true" := by
    rw [beforeOutput_wrappedArgs]
    unfold beforeInput
    rw [checkParams_wrappedArgs, defaults_Args]
    exact wrappedArgs_raw _ _ ho hr
  have hp := phase_beforeOutput env w hl
  have hw := written_of_phase _ hp
  have hws := writes_of_phase _ hp
  refine ⟨hd, ?_⟩
  generalize beforeOutput env w = we at hs hd hn hp hw hws hwa
  generalize (childResult env w).out = out at hs hne hj
  have hlen : ¬ out.length = 0 := fun h => hne (List.length_eq_zero.1 h)
  unfold processOutput
  simp only [hs, hlen, if_false, hn, List.length_nil, gt_iff_lt, lt_self_iff_false, hj,
    debug_eq, emit, hwa, writeStdout, hd, hsv]
  have hlog : ∀ r : Res E × Wrapper V E PS R W,
      r.2.log = ((((we.log ++ if we.Debug = true then [Event.debug "outJSON" (DebugData.bytes out)] else [])
          ++ [Event.jsonUnmarshal out])
          ++ if we.Debug = true then [Event.debug "outRAW" (DebugData.value v)] else [])
          ++ [Event.sprintf v]
          ++ if we.Debug = true then [Event.debug "outYAML" (DebugData.bytes s)] else [])
          ++ [Event.write (w.Stdout.getD env.osStdout) s] →
      writes r.2.log = [(w.Stdout.getD env.osStdout, s)] ∧
      written r.2.log = [s] ∧ ∀ x, Event.yamlMarshal x ∉ r.2.log := by
    intro r hr
    rw [hr]
    simp only [written_append, writes_append, hw, hws]
    refine ⟨?_, ?_, ?_⟩
    · cases we.Debug <;> simp [writes]
    · cases we.Debug <;> simp [written]
    · intro b hb
      simp only [List.mem_append, List.mem_singleton] at hb
      rcases hb with (((((hb | hb) | hb) | hb) | hb) | hb) | hb
      · have := hp _ hb; simp [Event.phase] at this
      · cases we.Debug <;> simp at hb
      · cases hb
      · cases we.Debug <;> simp at hb
      · cases hb
      · cases we.Debug <;> simp at hb
      · cases hb
  have hdec : ("true" : String) ≠ "" := by decide
  simp only [ne_eq, hdec, not_false_eq_true, if_true]
  split <;> exact hlog _ rfl

/-- C4: when `cmd.Run()` returns an exit error, `execute` returns nil, stores
the child's process state in `ProcessState` and keeps the captured bytes, and
`Run` continues with `processOutput`; when `cmd.Run()` returns any other
error, `execute` returns it and so does `Run`, with no event of the output
translation (no decoding, no encoding, no write). -/
theorem execute_exit_error (env : Env V E PS R W) (w : Wrapper V E PS R W) (hl : w.fresh) :
    (∀ e, (childResult env w).err = some (.exitError e) →
      (execute env (beforeExecute env w)).1 = Res.ok ∧
      (beforeOutput env w).ProcessState = (childResult env w).state ∧
      (beforeOutput env w).stdoutForJQ = some (childResult env w).out ∧
      ((processInput env (beforeInput env w)).1 = Res.ok →
        Run env w = processOutput env (beforeOutput env w))) ∧
    (∀ e, (childResult env w).err = some (.other e) →
      (execute env (beforeExecute env w)).1 = Res.error e ∧
      ((processInput env (beforeInput env w)).1 = Res.ok →
        (Run env w).1 = Res.error e ∧
        written (Run env w).2.log = [] ∧
        ∀ ev ∈ (Run env w).2.log, ev.phase ≤ 2)) := by
  have hres := execute_result env (beforeExecute env w)
  have hp := phase_beforeOutput env w hl
  constructor
  · intro e he
    unfold childResult at he
    rw [he] at hres
    refine ⟨hres.1, ?_, beforeOutput_stdoutForJQ env w, ?_⟩
    · unfold beforeOutput childResult; exact hres.2
    · intro hpi
      rw [Run_eq, hpi]
      simp only [hres.1]
  · intro e he
    unfold childResult at he
    rw [he] at hres
    refine ⟨hres.1, ?_⟩
    intro hpi
    have hrun : Run env w = (Res.error e, beforeOutput env w) := by
      rw [Run_eq, hpi]
      simp only [hres.1]
    rw [hrun]
    exact ⟨rfl, written_of_phase _ hp, hp⟩

/-- C8: when `yaml.Unmarshal` fails on the non-empty input, `Run` returns that
error, no subprocess has been launched and nothing has been written; when
`json.Unmarshal` fails on the captured output, `Run` returns that error and
nothing has been written. -/
theorem Run_format_error (env : Env V E PS R W) (w : Wrapper V E PS R W)
    (ho : env.wrappedOrder.Perm wrappedParams) (hl : w.fresh) :
    (∀ inYAML e, ¬ hasHelp w.Args →
      env.readAll (w.Stdin.getD env.osStdin) = .ok inYAML → inYAML ≠ [] →
      env.yamlUnmarshal inYAML = .error e →
      (Run env w).1 = Res.error e ∧ launched (Run env w).2.log = [] ∧
        written (Run env w).2.log = []) ∧
    (∀ e, ¬ hasHelp w.Args →
      (processInput env (beforeInput env w)).1 = Res.ok →
      (execute env (beforeExecute env w)).1 = Res.ok →
      (childResult env w).out ≠ [] →
      env.jsonUnmarshal (childResult env w).out = .error e →
      (Run env w).1 = Res.error e ∧ written (Run env w).2.log = []) := by
  constructor
  · intro inYAML e hh hr hne hy
    have hnil : (beforeInput env w).noInArgs = [] := noInArgs_nil env w ho hh
    have hin : (beforeInput env w).Stdin = some (w.Stdin.getD env.osStdin) :=
      checkParams_Stdin env w
    have hlen : inYAML.length > 0 := List.length_pos.2 hne
    have hpi : (processInput env (beforeInput env w)).1 = Res.error e := by
      unfold processInput
      simp only [hnil, hin, hr, hy, hlen, List.length_nil, gt_iff_lt, lt_self_iff_false,
        if_false, if_true]
    have hp := phase_beforeExecute env w hl
    have hrun : Run env w = (Res.error e, beforeExecute env w) := by
      rw [Run_eq, hpi]
    rw [hrun]
    exact ⟨rfl, launched_of_phase _ hp,
      written_of_phase _ (fun ev hev => Nat.le_succ_of_le (hp ev hev))⟩
  · intro e hh hpi hex hne hj
    have hs := beforeOutput_stdoutForJQ env w
    have hn : (beforeOutput env w).noOutArgs = [] := by
      rw [beforeOutput_noOutArgs]; exact noOutArgs_nil env w ho hh
    have hp := phase_beforeOutput env w hl
    have hw := written_of_phase _ hp
    have hrun : Run env w = processOutput env (beforeOutput env w) := by
      rw [Run_eq, hpi]
      simp only [hex]
    rw [hrun]
    generalize beforeOutput env w = we at hs hn hp hw
    generalize (childResult env w).out = out at hs hne hj
    have hlen : ¬ out.length = 0 := fun h => hne (List.length_eq_zero.1 h)
    unfold processOutput
    simp only [hs, hlen, if_false, hn, List.length_nil, gt_iff_lt, lt_self_iff_false, hj,
      debug_eq, emit, written_append, hw]
    refine ⟨trivial, ?_⟩
    cases we.Debug <;> simp [written]

/-- C9 fails for a wrapper whose field `JQ` is `/opt/jq-1.7/bin/jq`: `Run`
launches the executable `jq`. -/
theorem Run_launches_literal_jq :
    (defaults (echoEnv wrappedParams)
      (Wrapper.new "/opt/jq-1.7/bin/jq" [".foo"] (some [49]) (some ()) (some ()) false)).JQ
      = "/opt/jq-1.7/bin/jq" ∧
    launched (Run (echoEnv wrappedParams)
      (Wrapper.new "/opt/jq-1.7/bin/jq" [".foo"] (some [49]) (some ()) (some ()) false)).2.log
      = ["jq"] := by
  decide

/-! ## Witnesses -/

/-- The chain of the four codec calls on the input `1` of `yq .foo`. -/
theorem Run_echo_chain_witness :
    (Run (echoEnv wrappedParams.reverse) (mainWrapper [".foo"] [49])).1 = Res.ok ∧
    written (Run (echoEnv wrappedParams.reverse) (mainWrapper [".foo"] [49])).2.log = [[49]] :=
  Run_echo_chain (echoEnv wrappedParams.reverse) (mainWrapper [".foo"] [49])
    [49] [49] [49] [49] [49] (some 0)
    (List.reverse_perm _) rfl (by decide) (by decide) rfl (by decide) rfl rfl
    (fun _ _ _ => rfl) (by decide) rfl rfl rfl

/-- Witness of C6. -/
theorem processInput_skips_stdin_witness :
    (echoEnv wrappedParams.reverse).wrappedOrder.Perm wrappedParams ∧
    hasHelp helpInvocation.Args ∧ helpInvocation.fresh ∧
    (processInput (echoEnv wrappedParams.reverse)
        (checkParams (echoEnv wrappedParams.reverse)
          (defaults (echoEnv wrappedParams.reverse) helpInvocation))).1 = Res.ok ∧
    (processInput (echoEnv wrappedParams.reverse)
        (checkParams (echoEnv wrappedParams.reverse)
          (defaults (echoEnv wrappedParams.reverse) helpInvocation))).2.stdinForJQ = none ∧
    Event.readAll ∉ (processInput (echoEnv wrappedParams.reverse)
        (checkParams (echoEnv wrappedParams.reverse)
          (defaults (echoEnv wrappedParams.reverse) helpInvocation))).2.log :=
  ⟨List.reverse_perm _, by decide, rfl,
    processInput_skips_stdin (echoEnv wrappedParams.reverse) helpInvocation
      (List.reverse_perm _) (by decide) rfl⟩

/-- Witness of C10. -/
theorem processInput_empty_input_witness :
    (echoEnv wrappedParams).wrappedOrder.Perm wrappedParams ∧
    ¬ hasHelp emptyInvocation.Args ∧
    (echoEnv wrappedParams).readAll
      (emptyInvocation.Stdin.getD (echoEnv wrappedParams).osStdin) = .ok [] ∧
    emptyInvocation.fresh ∧
    (processInput (echoEnv wrappedParams)
        (checkParams (echoEnv wrappedParams)
          (defaults (echoEnv wrappedParams) emptyInvocation))).1 = Res.ok ∧
    (processInput (echoEnv wrappedParams)
        (checkParams (echoEnv wrappedParams)
          (defaults (echoEnv wrappedParams) emptyInvocation))).2.stdinForJQ = some [] ∧
    (∀ b, Event.yamlUnmarshal b ∉ (processInput (echoEnv wrappedParams)
        (checkParams (echoEnv wrappedParams)
          (defaults (echoEnv wrappedParams) emptyInvocation))).2.log) ∧
    (∀ v, Event.jsonMarshal v ∉ (processInput (echoEnv wrappedParams)
        (checkParams (echoEnv wrappedParams)
          (defaults (echoEnv wrappedParams) emptyInvocation))).2.log) ∧
    (∀ d, Event.debug "inRAW" d ∉ (processInput (echoEnv wrappedParams)
        (checkParams (echoEnv wrappedParams)
          (defaults (echoEnv wrappedParams) emptyInvocation))).2.log) :=
  ⟨List.Perm.refl _, by decide, rfl, rfl,
    processInput_empty_input (echoEnv wrappedParams) emptyInvocation
      (List.Perm.refl _) (by decide) rfl rfl⟩

/-- Witness of C5: the child prints a usage text that is not JSON; it is
written to the writer `stdout`, nothing to `stderr`. -/
theorem processOutput_passthrough_witness :
    (sinkEnv wrappedParams usageChild (rejecting [85, 115, 97, 103, 101, 58, 10] "invalid")
        (rejecting [85, 115, 97, 103, 101, 58, 10] "invalid")).wrappedOrder.Perm wrappedParams ∧
    hasHelp (sinkWrapper ["--help"] [102, 111, 111]).Args ∧
    (sinkWrapper ["--help"] [102, 111, 111]).fresh ∧
    (childResult
        (sinkEnv wrappedParams usageChild (rejecting [85, 115, 97, 103, 101, 58, 10] "invalid")
          (rejecting [85, 115, 97, 103, 101, 58, 10] "invalid"))
        (sinkWrapper ["--help"] [102, 111, 111])).out ≠ [] ∧
    writes (processOutput
        (sinkEnv wrappedParams usageChild (rejecting [85, 115, 97, 103, 101, 58, 10] "invalid")
          (rejecting [85, 115, 97, 103, 101, 58, 10] "invalid"))
        (beforeOutput
          (sinkEnv wrappedParams usageChild (rejecting [85, 115, 97, 103, 101, 58, 10] "invalid")
            (rejecting [85, 115, 97, 103, 101, 58, 10] "invalid"))
          (sinkWrapper ["--help"] [102, 111, 111]))).2.log
      = [(Sink.stdout, [85, 115, 97, 103, 101, 58, 10])] :=
  ⟨List.Perm.refl _, by decide, rfl, by decide,
    (processOutput_passthrough
      (sinkEnv wrappedParams usageChild (rejecting [85, 115, 97, 103, 101, 58, 10] "invalid")
        (rejecting [85, 115, 97, 103, 101, 58, 10] "invalid"))
      (sinkWrapper ["--help"] [102, 111, 111])
      (List.Perm.refl _) (by decide) rfl).2.2.1 (by decide)⟩

/-- Witness of C7: the captured output is `"hello"`, the bytes `hello` are
written to the writer `stdout`, nothing to `stderr`. -/
theorem processOutput_raw_witness :
    (sinkEnv wrappedParams echoChild (fun b => .ok b) unquote).wrappedOrder.Perm wrappedParams ∧
    hasRawOutput (sinkWrapper ["--raw-output", "."] [34, 104, 101, 108, 108, 111, 34]).Args ∧
    ¬ hasHelp (sinkWrapper ["--raw-output", "."] [34, 104, 101, 108, 108, 111, 34]).Args ∧
    (sinkWrapper ["--raw-output", "."] [34, 104, 101, 108, 108, 111, 34]).fresh ∧
    (childResult (sinkEnv wrappedParams echoChild (fun b => .ok b) unquote)
        (sinkWrapper ["--raw-output", "."] [34, 104, 101, 108, 108, 111, 34])).out
      = [34, 104, 101, 108, 108, 111, 34] ∧
    writes (processOutput (sinkEnv wrappedParams echoChild (fun b => .ok b) unquote)
        (beforeOutput (sinkEnv wrappedParams echoChild (fun b => .ok b) unquote)
          (sinkWrapper ["--raw-output", "."] [34, 104, 101, 108, 108, 111, 34]))).2.log
      = [(Sink.stdout, [104, 101, 108, 108, 111])] :=
  ⟨List.Perm.refl _, by decide, by decide, rfl, by decide,
    (processOutput_raw (sinkEnv wrappedParams echoChild (fun b => .ok b) unquote)
      (sinkWrapper ["--raw-output", "."] [34, 104, 101, 108, 108, 111, 34])
      [104, 101, 108, 108, 111] [104, 101, 108, 108, 111]
      (List.Perm.refl _) (by decide) (by decide) rfl (by decide) rfl rfl).2.1⟩

/-- Witness of C4: a child that exits with code 1, and a child that cannot be
started. -/
theorem execute_exit_error_witness :
    emptyInvocation.fresh ∧
    ((execute (testEnv wrappedParams exitOneChild (fun b => .ok b) (fun b => .ok b))
        (beforeExecute (testEnv wrappedParams exitOneChild (fun b => .ok b) (fun b => .ok b))
          emptyInvocation)).1 = Res.ok ∧
      (beforeOutput (testEnv wrappedParams exitOneChild (fun b => .ok b) (fun b => .ok b))
          emptyInvocation).ProcessState
        = (childResult (testEnv wrappedParams exitOneChild (fun b => .ok b) (fun b => .ok b))
          emptyInvocation).state ∧
      Run (testEnv wrappedParams exitOneChild (fun b => .ok b) (fun b => .ok b)) emptyInvocation
        = processOutput (testEnv wrappedParams exitOneChild (fun b => .ok b) (fun b => .ok b))
            (beforeOutput (testEnv wrappedParams exitOneChild (fun b => .ok b) (fun b => .ok b))
              emptyInvocation)) ∧
    ((Run (testEnv wrappedParams missingChild (fun b => .ok b) (fun b => .ok b))
        emptyInvocation).1 = Res.error "executable file not found" ∧
      written (Run (testEnv wrappedParams missingChild (fun b => .ok b) (fun b => .ok b))
        emptyInvocation).2.log = []) :=
  ⟨rfl,
    ⟨((execute_exit_error (testEnv wrappedParams exitOneChild (fun b => .ok b) (fun b => .ok b))
        emptyInvocation rfl).1 "exit status 1" rfl).1,
     ((execute_exit_error (testEnv wrappedParams exitOneChild (fun b => .ok b) (fun b => .ok b))
        emptyInvocation rfl).1 "exit status 1" rfl).2.1,
     ((execute_exit_error (testEnv wrappedParams exitOneChild (fun b => .ok b) (fun b => .ok b))
        emptyInvocation rfl).1 "exit status 1" rfl).2.2.2 rfl⟩,
    ⟨(((execute_exit_error (testEnv wrappedParams missingChild (fun b => .ok b) (fun b => .ok b))
        emptyInvocation rfl).2 "executable file not found" rfl).2 rfl).1,
     (((execute_exit_error (testEnv wrappedParams missingChild (fun b => .ok b) (fun b => .ok b))
        emptyInvocation rfl).2 "executable file not found" rfl).2 rfl).2.1⟩⟩

/-- Witness of C8: a YAML decoder that rejects the input `"`, and a JSON
decoder that rejects the captured output `x`. -/
theorem Run_format_error_witness :
    (testEnv wrappedParams echoChild (rejecting [34] "yaml: found unexpected end of stream")
        (fun b => .ok b)).wrappedOrder.Perm wrappedParams ∧
    quoteInvocation.fresh ∧ ¬ hasHelp quoteInvocation.Args ∧
    ((Run (testEnv wrappedParams echoChild (rejecting [34] "yaml: found unexpected end of stream")
        (fun b => .ok b)) quoteInvocation).1
        = Res.error "yaml: found unexpected end of stream" ∧
      launched (Run (testEnv wrappedParams echoChild
        (rejecting [34] "yaml: found unexpected end of stream")
        (fun b => .ok b)) quoteInvocation).2.log = [] ∧
      written (Run (testEnv wrappedParams echoChild
        (rejecting [34] "yaml: found unexpected end of stream")
        (fun b => .ok b)) quoteInvocation).2.log = []) ∧
    ((Run (testEnv wrappedParams brokenChild (fun b => .ok b)
        (rejecting [120] "invalid character")) quoteInvocation).1
        = Res.error "invalid character" ∧
      written (Run (testEnv wrappedParams brokenChild (fun b => .ok b)
        (rejecting [120] "invalid character")) quoteInvocation).2.log = []) :=
  ⟨List.Perm.refl _, rfl, by decide,
    (Run_format_error (testEnv wrappedParams echoChild
        (rejecting [34] "yaml: found unexpected end of stream") (fun b => .ok b))
      quoteInvocation (List.Perm.refl _) rfl).1 [34] "yaml: found unexpected end of stream"
      (by decide) rfl (by decide) rfl,
    (Run_format_error (testEnv wrappedParams brokenChild (fun b => .ok b)
        (rejecting [120] "invalid character"))
      quoteInvocation (List.Perm.refl _) rfl).2 "invalid character"
      (by decide) rfl rfl (by decide) rfl⟩

end Wrap
